import Mathlib

/-!
Verification of the dotfiles repository's configuration core: the
`bash_to_dict` script parser (`src/python/bashdict.py`), the configuration
resolution step (`src/python/openai_util.py`), and the endpoint construction
and response extraction logic (`src/python/openai_api.py`).

The Python source is shallowly embedded: Python dicts become ordered
association lists with in-place update (`dictInsert`), Python string methods
(`strip`, `split`, `startswith`, `join`) become the `py*` helpers below
operating on the character list underlying a `String`, and fallible Python
code (lines that raise `IndexError`, constructor bodies that raise
`AssertionError` or `NameError`) returns `Option` / `Except`.
-/

namespace Dotfiles

/-- Python `str.strip()` whitespace predicate (default whitespace set). -/
def pyIsSpace (c : Char) : Bool :=
  (c = ' ') || (c = '\t') || (c = '\n') || (c = '\r') || (c = '\x0b') || (c = '\x0c')

/-- Strip leading and trailing whitespace from a character list. -/
def pyStripChars (l : List Char) : List Char :=
  ((l.dropWhile pyIsSpace).reverse.dropWhile pyIsSpace).reverse

/-- Python `line.strip()`. -/
def pyStrip (s : String) : String := ⟨pyStripChars s.data⟩

/-- Character-list implementation of `List.isPrefixOf` via decidable equality. -/
def chStarts : List Char → List Char → Bool
  | [], _ => true
  | _ :: _, [] => false
  | a :: as, b :: bs => if a = b then chStarts as bs else false

/-- Python `s.startswith(pre)`. -/
def pyStartsWith (s pre : String) : Bool := chStarts pre.data s.data

/-- Worker for splitting a character list at every occurrence of `c`. -/
def splitCharAux (c : Char) : List Char → List Char → List (List Char)
  | [], acc => [acc.reverse]
  | x :: xs, acc =>
    if x = c then acc.reverse :: splitCharAux c xs []
    else splitCharAux c xs (x :: acc)

/-- Python `s.split(sep)` for a one-character separator (keeps empty pieces). -/
def pySplitChar (c : Char) (s : String) : List String :=
  (splitCharAux c s.data []).map (fun l => (⟨l⟩ : String))

/-- Worker for whitespace splitting: collects maximal non-whitespace runs. -/
def splitWsAux : List Char → List Char → List (List Char)
  | [], acc => if acc.isEmpty then [] else [acc.reverse]
  | x :: xs, acc =>
    if pyIsSpace x then
      if acc.isEmpty then splitWsAux xs []
      else acc.reverse :: splitWsAux xs []
    else splitWsAux xs (x :: acc)

/-- Python `s.split()` with no argument: split on whitespace runs, drop empties. -/
def pySplitWs (s : String) : List String :=
  (splitWsAux s.data []).map (fun l => (⟨l⟩ : String))

/-- Python `"=".join(parts)`. -/
def joinWithEq : List String → String
  | [] => ""
  | [s] => s
  | s :: rest => s ++ "=" ++ joinWithEq rest

/-- Python `"\n".join(lines)` (used to render test scripts). -/
def joinWithNl : List String → String
  | [] => ""
  | [s] => s
  | s :: rest => s ++ "\n" ++ joinWithNl rest

/-- Python dict assignment `d[k] = v`: replace the value in place if the key is
present (keeping its position), otherwise append the new binding at the end. -/
def dictInsert {α : Type} : List (String × α) → String → α → List (String × α)
  | [], k, v => [(k, v)]
  | p :: rest, k, v => if p.1 = k then (k, v) :: rest else p :: dictInsert rest k v

/-- Python dict read `d[k]` / membership `k in d`: first binding of `k`. -/
def dlookup {α : Type} : List (String × α) → String → Option α
  | [], _ => none
  | p :: rest, k => if p.1 = k then some p.2 else dlookup rest k

/-- Python `del d[k]` (callers guard on membership, so plain removal). -/
def delKey {α : Type} : List (String × α) → String → List (String × α)
  | [], _ => []
  | p :: rest, k => if p.1 = k then delKey rest k else p :: delKey rest k

/-- Python `d.update(kw)`: assign every binding of `kw` into `d`, in order. -/
def dictUpdate {α : Type} (d kw : List (String × α)) : List (String × α) :=
  kw.foldl (fun d p => dictInsert d p.1 p.2) d

/-! ## ScriptConfigParser: `bashdict.bash_to_dict` -/

/-- What one stripped script line does to the parser state. -/
inductive LineAct : Type
  | skip : LineAct
  | exportKV (k v : String) : LineAct
  | unsetK (k : String) : LineAct
deriving DecidableEq

/-- Classification of one input line, mirroring the body of the `for line in
bash_file` loop of `bash_to_dict`.  `none` models a raised `IndexError`
(an `export` or `unset` line with no second whitespace token). -/
def lineAction (line0 : String) : Option LineAct :=
  if pyStartsWith (pyStrip line0) "#" then some .skip
  else if pyStartsWith (pyStrip line0) "export" then
    match (pySplitWs ((pySplitChar '=' (pyStrip line0)).headD "")).get? 1 with
    | some key =>
      some (.exportKV key (joinWithEq (pySplitChar '=' (pyStrip line0)).tail))
    | none => none
  else if pyStartsWith (pyStrip line0) "unset" then
    match (pySplitWs (pyStrip line0)).get? 1 with
    | some key => some (.unsetK key)
    | none => none
  else some .skip

/-- Apply one classified line to the `(config, unset)` parser state. -/
def applyAct (st : List (String × String) × List String) :
    LineAct → List (String × String) × List String
  | .skip => st
  | .exportKV k v => (dictInsert st.1 k v, st.2)
  | .unsetK k => (st.1, st.2 ++ [k])

/-- The parser loop of `bash_to_dict` over a list of raw lines. -/
def parseLinesCore : List String → List (String × String) × List String →
    Option (List (String × String) × List String)
  | [], st => some st
  | l :: ls, st =>
    match lineAction l with
    | none => none
    | some a => parseLinesCore ls (applyAct st a)

/-- Values of the returned config dict: ordinary exported values are strings;
the reserved `unset` entry holds the list of unset keys. -/
inductive EnvVal : Type
  | str (s : String) : EnvVal
  | list (ks : List String) : EnvVal
deriving DecidableEq

/-- The final `config['unset'] = unset` step of `bash_to_dict`. -/
def finalize (st : List (String × String) × List String) : List (String × EnvVal) :=
  dictInsert (st.1.map (fun p => (p.1, EnvVal.str p.2))) "unset" (EnvVal.list st.2)

/-- `bash_to_dict` on the lines of a script (the file-reading loop). -/
def bashToDictLines (ls : List String) : Option (List (String × EnvVal)) :=
  (parseLinesCore ls ([], [])).map finalize

/-- `bash_to_dict` on the text of the script: the source iterates the lines of
the opened file; `none` models a raised exception. -/
def bash_to_dict (s : String) : Option (List (String × EnvVal)) :=
  bashToDictLines (pySplitChar '\n' s)

/-! ## ConfigResolver: `openai_util.py` -/

/-- The `config_mapping` translation table of `openai_config_from_bash`:
recognized environment-variable names and their canonical parameter names. -/
def configMapping : List (String × String) :=
  [("OPENAI_API_KEY", "api_key"),
   ("OPENAI_API_BASE", "api_base"),
   ("OPENAI_API_TYPE", "api_type"),
   ("OPENAI_API_VERSION", "api_version"),
   ("OPENAI_ORGANIZATION", "organization")]

/-- The loop of `openai_config_from_bash` over an arbitrary table:
`for config_key, param_key in table: if config_key in envs:
params[param_key] = envs[config_key]`. -/
def tableFold (envs : List (String × EnvVal)) (table : List (String × String))
    (params : List (String × EnvVal)) : List (String × EnvVal) :=
  table.foldl
    (fun ps q =>
      match dlookup envs q.1 with
      | some v => dictInsert ps q.2 v
      | none => ps)
    params

/-- Translation step of `openai_config_from_bash`: build canonical parameters
from a parsed script config. -/
def openai_config_from_envs (envs : List (String × EnvVal)) : List (String × EnvVal) :=
  tableFold envs configMapping []

/-- `openai_config_from_bash`: parse the script, then translate. -/
def openai_config_from_bash (s : String) : Option (List (String × EnvVal)) :=
  (bash_to_dict s).map openai_config_from_envs

/-- The `if 'debug' in config: del config['debug']` step of
`get_completion_cli` / `get_embedding_cli`. -/
def stripDebug {α : Type} (d : List (String × α)) : List (String × α) :=
  if (dlookup d "debug").isSome then delKey d "debug" else d

/-- The config-merging portion of `get_completion_cli` / `get_embedding_cli`
(both functions share it verbatim).  First component: the parameter dict
handed to the API call.  Second component: the final state of the caller's
`config` object — `config.update(kwargs)` and `del config['debug']` mutate
the dict the caller passed in whenever it is truthy (non-empty). -/
def resolveParamsE {α : Type} (config : Option (List (String × α)))
    (kwargs : List (String × α)) :
    List (String × α) × Option (List (String × α)) :=
  match config with
  | some c =>
    if c.isEmpty then (stripDebug kwargs, some c)
    else
      let merged := stripDebug (dictUpdate c kwargs)
      (merged, some merged)
  | none => (stripDebug kwargs, none)

/-- The resolved parameter dict (the value forwarded to the API call). -/
def resolveParams {α : Type} (config : Option (List (String × α)))
    (kwargs : List (String × α)) : List (String × α) :=
  (resolveParamsE config kwargs).1

/-! ## EndpointAbstraction: `openai_api.py` -/

/-- The fixed-shape parameter record maintained by `openai_params_from_config`
(`None` marks an absent parameter). -/
structure OpenAIParams : Type where
  api_key : Option String
  api_base : Option String
  api_type : Option String
  api_version : Option String
  organization : Option String
deriving DecidableEq

/-- Exceptions raised when constructing an endpoint: a failed `assert`, an
undefined name, or the abstract-class instantiation error. -/
inductive PyError : Type
  | assertionError (msg : String) : PyError
  | nameError (n : String) : PyError
  | typeError (abstractMethod : String) : PyError
deriving DecidableEq

/-- The data computed by `AzureOpenAIEndpoint.__init__` on success. -/
structure AzureEndpointData : Type where
  headers : List (String × String)
  completion_url : String
  embedding_url : String
  chat_completion_url : String
deriving DecidableEq

/-- `OpenAIRESTEndpoint.__init__`.  The asserts run in source order; once they
all pass, the header construction at line 148 evaluates the undefined local
name `key` (`f"Bearer {key}"`), so the constructor raises `NameError` before
any URL is built (the URL lines would read the client-library module globals
`openai.api_base` / `openai.api_version`, not the passed config). -/
def openAIRESTEndpoint_init (model : Option String) (config : Option OpenAIParams) :
    Except PyError Unit :=
  match config with
  | none => .error (.assertionError "config must be provided")
  | some c =>
    match c.api_key with
    | none => .error (.assertionError "api_key must be provided")
    | some _ =>
      match c.api_type with
      | none => .error (.assertionError "api_type must be provided")
      | some _ =>
        match model with
        | none => .error (.assertionError "model must be provided")
        | some _ => .error (.nameError "key")

/-- `AzureOpenAIEndpoint.__init__`: asserts in source order, then the headers
and the three deployment URLs built from the passed config. -/
def azureOpenAIEndpoint_init (deployment_name : Option String)
    (config : Option OpenAIParams) : Except PyError AzureEndpointData :=
  match config with
  | none => .error (.assertionError "config must be provided")
  | some c =>
    match c.api_key with
    | none => .error (.assertionError "api_key must be provided")
    | some key =>
      match c.api_type with
      | none => .error (.assertionError "api_type must be provided")
      | some _ =>
        match c.api_version with
        | none => .error (.assertionError "api_version must be provided")
        | some ver =>
          match c.api_base with
          | none => .error (.assertionError "api_base must be provided")
          | some base =>
            match deployment_name with
            | none => .error (.assertionError "deployment name must be provided")
            | some dep =>
              .ok
                { headers := [("Content-Type", "application/json"), ("api-key", key)]
                  completion_url :=
                    base ++ "/openai/deployments/" ++ dep ++ "/completions?api-version=" ++ ver
                  embedding_url :=
                    base ++ "/openai/deployments/" ++ dep ++ "/embeddings?api-version=" ++ ver
                  chat_completion_url :=
                    base ++ "/openai/deployments/" ++ dep ++ "/chat/completions?api-version=" ++ ver }

/-- Whether a constructor outcome is a failed precondition check
(`AssertionError`, the source's form of `MissingRequiredParameter`). -/
def isAssertErr {α : Type} : Except PyError α → Bool
  | .error (.assertionError _) => true
  | _ => false

/-- The abstract methods declared by `APIEndpoint` (lines 46-54). -/
def apiEndpoint_abstract : List String := ["get_config", "get_response"]

/-- The abstract methods `RESTAPIEndpoint` adds on top of `APIEndpoint`
(lines 61-89). -/
def restAPIEndpoint_abstract : List String :=
  ["get_headers", "get_completion_url", "get_chat_completion_url",
   "get_embedding_url", "get_completion_request", "get_embedding_request"]

/-- The methods `OpenAIRESTEndpoint` defines (lines 158-185): every inherited
abstract method except `get_response`. -/
def openAIRESTEndpoint_methods : List String :=
  ["get_config", "get_headers", "get_completion_url", "get_chat_completion_url",
   "get_embedding_url", "get_completion_request", "get_embedding_request"]

/-- The methods `AzureOpenAIEndpoint` defines (lines 223-250): every inherited
abstract method except `get_response`. -/
def azureOpenAIEndpoint_methods : List String :=
  ["get_config", "get_headers", "get_completion_url", "get_chat_completion_url",
   "get_embedding_url", "get_completion_request", "get_embedding_request"]

/-- Python ABC instantiation: a class that leaves any inherited abstract
method unimplemented cannot be instantiated — `TypeError` names the first
missing method and is raised before `__init__` runs. -/
def pyInstantiate {α : Type} (abstractMs implemented : List String)
    (initBody : Except PyError α) : Except PyError α :=
  match abstractMs.filter (fun m => !implemented.contains m) with
  | [] => initBody
  | m :: _ => .error (.typeError m)

/-- Constructing `OpenAIRESTEndpoint(model, config)`: the ABC check runs
before the `__init__` body. -/
def openAIRESTEndpoint_new (model : Option String) (config : Option OpenAIParams) :
    Except PyError Unit :=
  pyInstantiate (apiEndpoint_abstract ++ restAPIEndpoint_abstract)
    openAIRESTEndpoint_methods (openAIRESTEndpoint_init model config)

/-- Constructing `AzureOpenAIEndpoint(deployment_name, config)`: the ABC
check runs before the `__init__` body. -/
def azureOpenAIEndpoint_new (deployment_name : Option String)
    (config : Option OpenAIParams) : Except PyError AzureEndpointData :=
  pyInstantiate apiEndpoint_abstract azureOpenAIEndpoint_methods
    (azureOpenAIEndpoint_init deployment_name config)

/-! ## RequestExecutor: response payload extraction -/

/-- JSON-like response values. -/
inductive JValue : Type
  | jstr (s : String) : JValue
  | jnum (n : Int) : JValue
  | jarr (xs : List JValue) : JValue
  | jobj (fields : List (String × JValue)) : JValue

/-- Python `j[k]` on a JSON object; `none` models `KeyError` / `TypeError`. -/
def jget (j : JValue) (k : String) : Option JValue :=
  match j with
  | .jobj fields => dlookup fields k
  | _ => none

/-- Python `j[i]` on a JSON array; `none` models `IndexError` / `TypeError`. -/
def jidx (j : JValue) (i : Nat) : Option JValue :=
  match j with
  | .jarr xs => xs.get? i
  | _ => none

/-- `response['choices'][0]['text']` — `get_completion_cli`, line 82. -/
def cliCompletionExtract (resp : JValue) : Option JValue :=
  ((jget resp "choices").bind (fun j => jidx j 0)).bind (fun j => jget j "text")

/-- `response['data'][0]['embedding']` — `get_embedding_cli`, line 102. -/
def cliEmbeddingExtract (resp : JValue) : Option JValue :=
  ((jget resp "data").bind (fun j => jidx j 0)).bind (fun j => jget j "embedding")

/-- `response_json["data"][0]["completions"]` —
`RESTAPIEndpoint.get_completions`, line 129. -/
def restCompletionsExtract (resp : JValue) : Option JValue :=
  ((jget resp "data").bind (fun j => jidx j 0)).bind (fun j => jget j "completions")

/-- `response_json["data"][0]["embedding"]` —
`RESTAPIEndpoint.get_embedding`, line 109. -/
def restEmbeddingExtract (resp : JValue) : Option JValue :=
  ((jget resp "data").bind (fun j => jidx j 0)).bind (fun j => jget j "embedding")

/-! ## Auxiliary definitions for the statements and proofs -/

/-- Right-trim only (what `strip` does past a non-whitespace left end). -/
def rtrimChars (l : List Char) : List Char :=
  (l.reverse.dropWhile pyIsSpace).reverse

/-- Well-formedness of an export key: nonempty, no whitespace, no `=`. -/
def wfKeyB (K : String) : Bool :=
  (!K.data.isEmpty) && K.data.all (fun c => !pyIsSpace c) && K.data.all (fun c => c != '=')

/-- Well-formedness of an export value as one script line: no newline, and no
trailing whitespace (which `strip` would eat). -/
def wfValB (V : String) : Bool :=
  V.data.all (fun c => c != '\n') &&
    (match V.data.getLast? with
     | some c => !pyIsSpace c
     | none => true)

/-- The script line `export K=V`. -/
def renderExport (p : String × String) : String :=
  "export " ++ p.1 ++ "=" ++ p.2

/-- A script made only of `export K=V` lines, one per pair. -/
def scriptOf (L : List (String × String)) : String :=
  joinWithNl (L.map renderExport)

/-- Parser states that agree on the unset list and on every config key other
than the reserved key `unset`. -/
def StRel (s1 s2 : List (String × String) × List String) : Prop :=
  s1.2 = s2.2 ∧ ∀ k, k ≠ "unset" → dlookup s1.1 k = dlookup s2.1 k

/-- Extensional equality of two parse outcomes: both fail, or both succeed
with dicts that agree under every lookup. -/
def optEquiv (o1 o2 : Option (List (String × EnvVal))) : Prop :=
  match o1, o2 with
  | none, none => True
  | some d1, some d2 => ∀ k, dlookup d1 k = dlookup d2 k
  | _, _ => False

/-! ## Lemmas about the dict operations -/

theorem dlookup_dictInsert {α : Type} (d : List (String × α)) (k : String) (v : α)
    (q : String) :
    dlookup (dictInsert d k v) q = if q = k then some v else dlookup d q := by
  induction d with
  | nil =>
    by_cases h : q = k
    · simp [dictInsert, dlookup, h]
    · simp [dictInsert, dlookup, h, Ne.symm h]
  | cons p rest ih =>
    by_cases h1 : p.1 = k
    · by_cases h2 : q = k
      · simp [dictInsert, dlookup, h1, h2]
      · simp [dictInsert, dlookup, h1, h2, Ne.symm h2]
    · by_cases h2 : q = k
      · subst h2
        simp [dictInsert, dlookup, h1, ih]
      · simp [dictInsert, dlookup, h1, h2, ih]

theorem dlookup_delKey {α : Type} (d : List (String × α)) (k q : String) :
    dlookup (delKey d k) q = if q = k then none else dlookup d q := by
  induction d with
  | nil => simp [delKey, dlookup]
  | cons p rest ih =>
    by_cases h1 : p.1 = k
    · by_cases h2 : q = k
      · subst h2
        simp [delKey, dlookup, h1, ih]
      · simp [delKey, dlookup, h1, h2, ih, Ne.symm h2]
    · by_cases h2 : q = k
      · subst h2
        simp [delKey, dlookup, h1, ih, Ne.symm h1]
      · simp [delKey, dlookup, h1, h2, ih]

theorem dlookup_stripDebug {α : Type} (d : List (String × α)) (q : String) :
    dlookup (stripDebug d) q = if q = "debug" then none else dlookup d q := by
  by_cases hq : q = "debug" <;>
    rcases h : dlookup d "debug" with _ | v <;>
      simp [stripDebug, h, dlookup_delKey, hq]

theorem dlookup_eq_none_iff {α : Type} (d : List (String × α)) (q : String) :
    dlookup d q = none ↔ q ∉ d.map Prod.fst := by
  induction d with
  | nil => simp [dlookup]
  | cons p rest ih =>
    by_cases h : p.1 = q
    · simp [dlookup, h]
    · simp [dlookup, h, ih, Ne.symm h]

theorem mem_of_dlookup {α : Type} (d : List (String × α)) (q : String) (v : α)
    (h : dlookup d q = some v) : (q, v) ∈ d := by
  induction d with
  | nil => simp [dlookup] at h
  | cons p rest ih =>
    by_cases hp : p.1 = q
    · simp [dlookup, hp] at h
      have hpq : p = (q, v) := Prod.ext hp h
      rw [← hpq]
      exact List.mem_cons_self _ _
    · simp [dlookup, hp] at h
      exact List.mem_cons_of_mem _ (ih h)

theorem dlookup_of_mem_nodup {α : Type} (d : List (String × α)) (q : String) (v : α)
    (hnd : (d.map Prod.fst).Nodup) (hm : (q, v) ∈ d) : dlookup d q = some v := by
  induction d with
  | nil => cases hm
  | cons p rest ih =>
    rcases List.mem_cons.mp hm with h | h
    · simp [dlookup, ← h]
    · have hne : p.1 ≠ q := by
        intro he
        exact (List.nodup_cons.mp hnd).1 (he ▸ List.mem_map.mpr ⟨(q, v), h, rfl⟩)
      simp [dlookup, hne, ih (List.nodup_cons.mp hnd).2 h]

theorem dlookup_perm {α : Type} (d1 d2 : List (String × α)) (h : d1.Perm d2)
    (hnd : (d1.map Prod.fst).Nodup) (q : String) : dlookup d1 q = dlookup d2 q := by
  rcases hq : dlookup d1 q with _ | v
  · rcases hq2 : dlookup d2 q with _ | w
    · rfl
    · exact absurd (List.mem_map.mpr ⟨(q, w), h.symm.subset (mem_of_dlookup _ _ _ hq2), rfl⟩)
        ((dlookup_eq_none_iff _ _).mp hq)
  · exact (dlookup_of_mem_nodup _ _ _ ((h.map Prod.fst).nodup_iff.mp hnd)
      (h.subset (mem_of_dlookup _ _ _ hq))).symm

theorem dlookup_dictUpdate {α : Type} (d kw : List (String × α)) (q : String)
    (h : (kw.map Prod.fst).Nodup) :
    dlookup (dictUpdate d kw) q =
      match dlookup kw q with
      | some v => some v
      | none => dlookup d q := by
  induction kw generalizing d with
  | nil => simp [dictUpdate, dlookup]
  | cons p rest ih =>
    have hstep : dictUpdate d (p :: rest) = dictUpdate (dictInsert d p.1 p.2) rest := rfl
    rw [hstep, ih _ (List.nodup_cons.mp h).2]
    by_cases hq : q = p.1
    · subst hq
      have hnone : dlookup rest p.1 = none :=
        (dlookup_eq_none_iff _ _).mpr (List.nodup_cons.mp h).1
      simp [dlookup, hnone, dlookup_dictInsert]
    · simp [dlookup, Ne.symm hq, dlookup_dictInsert, hq]

theorem dlookup_resolveParams {α : Type} (c kw : List (String × α)) (q : String)
    (h : (kw.map Prod.fst).Nodup) :
    dlookup (resolveParams (some c) kw) q =
      if q = "debug" then none
      else
        match dlookup kw q with
        | some v => some v
        | none => dlookup c q := by
  rcases hc : c.isEmpty with _ | _
  · have hc0 : ¬c.isEmpty = true := by rw [hc]; exact Bool.false_ne_true
    simp only [resolveParams, resolveParamsE, if_neg hc0]
    rw [dlookup_stripDebug, dlookup_dictUpdate _ _ _ h]
  · have hc0 : c = [] := List.isEmpty_iff.mp hc
    subst hc0
    simp only [resolveParams, resolveParamsE, hc, if_pos]
    rw [dlookup_stripDebug]
    rcases dlookup kw q with _ | v <;> simp [dlookup]

theorem dlookup_mapVal {α β : Type} (d : List (String × α)) (f : α → β) (q : String) :
    dlookup (d.map (fun p => (p.1, f p.2))) q = (dlookup d q).map f := by
  induction d with
  | nil => simp [dlookup]
  | cons p rest ih =>
    by_cases h : p.1 = q <;> simp [dlookup, h, ih]

theorem dlookup_tableFold_notMem (envs : List (String × EnvVal))
    (table : List (String × String)) (ps : List (String × EnvVal)) (q : String)
    (h : q ∉ table.map Prod.snd) :
    dlookup (tableFold envs table ps) q = dlookup ps q := by
  induction table generalizing ps with
  | nil => rfl
  | cons t rest ih =>
    have h1 : q ≠ t.2 := by
      intro he
      exact h (he ▸ List.mem_map.mpr ⟨t, List.mem_cons_self _ _, rfl⟩)
    have h2 : q ∉ rest.map Prod.snd := by
      intro he
      rcases List.mem_map.mp he with ⟨u, hu, hq⟩
      exact h (List.mem_map.mpr ⟨u, List.mem_cons_of_mem _ hu, hq⟩)
    have hstep : tableFold envs (t :: rest) ps =
        tableFold envs rest
          (match dlookup envs t.1 with
           | some v => dictInsert ps t.2 v
           | none => ps) := rfl
    rw [hstep, ih _ h2]
    rcases dlookup envs t.1 with _ | v <;> simp [dlookup_dictInsert, h1]

theorem dlookup_tableFold_mem (envs : List (String × EnvVal))
    (table : List (String × String)) (ps : List (String × EnvVal))
    (hnd : (table.map Prod.snd).Nodup) (ek pk : String) (hmem : (ek, pk) ∈ table) :
    dlookup (tableFold envs table ps) pk =
      match dlookup envs ek with
      | some v => some v
      | none => dlookup ps pk := by
  induction table generalizing ps with
  | nil => cases hmem
  | cons t rest ih =>
    rcases List.mem_cons.mp hmem with h | h
    · have hpk : pk ∉ rest.map Prod.snd := by
        have := (List.nodup_cons.mp hnd).1
        rw [← h] at this
        exact this
      have hstep : tableFold envs (t :: rest) ps =
          tableFold envs rest
            (match dlookup envs t.1 with
             | some v => dictInsert ps t.2 v
             | none => ps) := rfl
      rw [hstep, dlookup_tableFold_notMem _ _ _ _ hpk, ← h]
      rcases dlookup envs ek with _ | v <;> simp [dlookup_dictInsert]
    · have ht2 : t.2 ≠ pk := by
        intro he
        exact (List.nodup_cons.mp hnd).1
          (he ▸ List.mem_map.mpr ⟨(ek, pk), h, rfl⟩)
      have hstep : tableFold envs (t :: rest) ps =
          tableFold envs rest
            (match dlookup envs t.1 with
             | some v => dictInsert ps t.2 v
             | none => ps) := rfl
      rw [hstep, ih _ (List.nodup_cons.mp hnd).2 h]
      rcases dlookup envs t.1 with _ | v <;>
        simp [dlookup_dictInsert, Ne.symm ht2]

/-! ## Lemmas about the Python string helpers -/

theorem strData_append (s t : String) : (s ++ t).data = s.data ++ t.data := rfl

theorem splitCharAux_noSep (c : Char) (l : List Char) (h : ∀ ch ∈ l, ch ≠ c) :
    ∀ acc, splitCharAux c l acc = [acc.reverse ++ l] := by
  induction l with
  | nil => intro acc; simp [splitCharAux]
  | cons x xs ih =>
    intro acc
    have hx : x ≠ c := h x (List.mem_cons_self _ _)
    simp only [splitCharAux, if_neg hx]
    rw [ih (fun ch hm => h ch (List.mem_cons_of_mem _ hm))]
    simp

theorem splitCharAux_append (c : Char) (pre rest : List Char)
    (h : ∀ ch ∈ pre, ch ≠ c) :
    ∀ acc, splitCharAux c (pre ++ c :: rest) acc
      = (acc.reverse ++ pre) :: splitCharAux c rest [] := by
  induction pre with
  | nil => intro acc; simp [splitCharAux]
  | cons x xs ih =>
    intro acc
    have hx : x ≠ c := h x (List.mem_cons_self _ _)
    simp only [List.cons_append, splitCharAux, if_neg hx, List.append_eq]
    rw [ih (fun ch hm => h ch (List.mem_cons_of_mem _ hm))]
    simp

theorem splitCharAux_ne_nil (c : Char) (l acc : List Char) :
    splitCharAux c l acc ≠ [] := by
  induction l generalizing acc with
  | nil => simp [splitCharAux]
  | cons x xs ih =>
    by_cases hx : x = c <;> simp [splitCharAux, hx, ih]

theorem joinWithEq_cons (s : String) (l : List String) (h : l ≠ []) :
    joinWithEq (s :: l) = s ++ "=" ++ joinWithEq l := by
  cases l with
  | nil => exact absurd rfl h
  | cons t rest => rfl

theorem joinEq_splitCharAux (l : List Char) :
    ∀ acc, (joinWithEq ((splitCharAux '=' l acc).map
      (fun cs => (⟨cs⟩ : String)))).data = acc.reverse ++ l := by
  induction l with
  | nil => intro acc; simp [splitCharAux, joinWithEq]
  | cons x xs ih =>
    intro acc
    by_cases hx : x = '='
    · subst hx
      rw [show splitCharAux '=' ('=' :: xs) acc = acc.reverse :: splitCharAux '=' xs []
        from by simp [splitCharAux]]
      rw [List.map_cons]
      have hmapne : (splitCharAux '=' xs []).map (fun cs => (⟨cs⟩ : String)) ≠ [] := by
        intro he
        exact splitCharAux_ne_nil '=' xs [] (List.map_eq_nil_iff.mp he)
      rw [joinWithEq_cons _ _ hmapne]
      rw [strData_append, strData_append, ih []]
      simp
    · simp only [splitCharAux, if_neg hx]
      rw [ih (x :: acc)]
      simp

theorem splitWsAux_noWs (l : List Char) (h : ∀ ch ∈ l, pyIsSpace ch = false)
    (hne : l ≠ []) : ∀ acc, splitWsAux l acc = [acc.reverse ++ l] := by
  induction l with
  | nil => exact absurd rfl hne
  | cons x xs ih =>
    intro acc
    have hx : ¬(pyIsSpace x = true) := by simp [h x (List.mem_cons_self _ _)]
    cases xs with
    | nil => simp [splitWsAux, hx]
    | cons y ys =>
      rw [show splitWsAux (x :: y :: ys) acc = splitWsAux (y :: ys) (x :: acc) from by
        simp [splitWsAux, hx]]
      rw [ih (fun ch hm => h ch (List.mem_cons_of_mem _ hm)) (by simp) (x :: acc)]
      simp

theorem splitWsAux_exportSp (tl : List Char) :
    splitWsAux ('e' :: 'x' :: 'p' :: 'o' :: 'r' :: 't' :: ' ' :: tl) [] =
      ['e', 'x', 'p', 'o', 'r', 't'] :: splitWsAux tl [] := by
  have h1 : ¬(pyIsSpace 'e' = true) := by decide
  have h2 : ¬(pyIsSpace 'x' = true) := by decide
  have h3 : ¬(pyIsSpace 'p' = true) := by decide
  have h4 : ¬(pyIsSpace 'o' = true) := by decide
  have h5 : ¬(pyIsSpace 'r' = true) := by decide
  have h6 : ¬(pyIsSpace 't' = true) := by decide
  have hs : pyIsSpace ' ' = true := by decide
  simp [splitWsAux, h1, h2, h3, h4, h5, h6, hs, List.isEmpty]

theorem pySplitWs_export_key (K : String) (hk1 : K.data ≠ [])
    (hk2 : ∀ ch ∈ K.data, pyIsSpace ch = false) :
    pySplitWs ("export " ++ K) = ["export", K] := by
  unfold pySplitWs
  rw [show ("export " ++ K).data
      = 'e' :: 'x' :: 'p' :: 'o' :: 'r' :: 't' :: ' ' :: K.data from rfl]
  rw [splitWsAux_exportSp, splitWsAux_noWs K.data hk2 hk1 []]
  simp only [List.map_cons, List.map_nil, List.reverse_nil, List.nil_append]

theorem dropWhile_eq_self_of_head (p : Char → Bool) (l : List Char)
    (h : ∀ ch, l.head? = some ch → p ch = false) : l.dropWhile p = l := by
  cases l with
  | nil => rfl
  | cons a as =>
    have ha := h a rfl
    rw [List.dropWhile_cons, if_neg (by simp [ha])]

theorem pyStripChars_eq_self (l : List Char)
    (hh : ∀ ch, l.head? = some ch → pyIsSpace ch = false)
    (hl : ∀ ch, l.getLast? = some ch → pyIsSpace ch = false) :
    pyStripChars l = l := by
  unfold pyStripChars
  rw [dropWhile_eq_self_of_head _ _ hh,
    dropWhile_eq_self_of_head _ _
      (fun ch hc => hl ch (by rwa [List.head?_reverse] at hc)),
    List.reverse_reverse]

theorem pyStripChars_append_nonWs (l1 l2 : List Char)
    (hh : ∀ ch, l1.head? = some ch → pyIsSpace ch = false)
    (hl : ∀ ch, l1.getLast? = some ch → pyIsSpace ch = false)
    (hne : l1 ≠ []) :
    pyStripChars (l1 ++ l2) = l1 ++ rtrimChars l2 := by
  unfold pyStripChars rtrimChars
  have hhd : (l1 ++ l2).dropWhile pyIsSpace = l1 ++ l2 := by
    apply dropWhile_eq_self_of_head
    intro ch hc
    cases l1 with
    | nil => exact absurd rfl hne
    | cons a as =>
      rw [List.cons_append] at hc
      have ha : a = ch := Option.some.inj hc
      exact ha ▸ hh a rfl
  have h1r : l1.reverse.dropWhile pyIsSpace = l1.reverse :=
    dropWhile_eq_self_of_head _ _
      (fun ch hc => hl ch (by rwa [List.head?_reverse] at hc))
  rw [hhd, List.reverse_append, List.dropWhile_append]
  by_cases he : (l2.reverse.dropWhile pyIsSpace).isEmpty = true
  · rw [if_pos he, h1r, List.reverse_reverse]
    have h0 : l2.reverse.dropWhile pyIsSpace = [] := by
      simpa [List.isEmpty_iff] using he
    rw [h0]
    simp
  · rw [if_neg he, List.reverse_append, List.reverse_reverse]

theorem chStarts_self_append (pre rest : List Char) :
    chStarts pre (pre ++ rest) = true := by
  induction pre with
  | nil => rfl
  | cons a as ih => simp [chStarts, List.cons_append, ih]

/-! ## Characterization of `lineAction` on export lines -/

theorem of_wfKeyB (K : String) (h : wfKeyB K = true) :
    K.data ≠ [] ∧ (∀ ch ∈ K.data, pyIsSpace ch = false) ∧ (∀ ch ∈ K.data, ch ≠ '=') := by
  simp only [wfKeyB, Bool.and_eq_true] at h
  obtain ⟨⟨h1, h2⟩, h3⟩ := h
  refine ⟨?_, ?_, ?_⟩
  · intro he
    rw [he] at h1
    simp at h1
  · intro ch hm
    simpa using (List.all_eq_true.mp h2) ch hm
  · intro ch hm
    simpa using (List.all_eq_true.mp h3) ch hm

theorem of_wfValB (V : String) (h : wfValB V = true) :
    (∀ ch ∈ V.data, ch ≠ '\n') ∧
      (∀ ch, V.data.getLast? = some ch → pyIsSpace ch = false) := by
  simp only [wfValB, Bool.and_eq_true] at h
  obtain ⟨h1, h2⟩ := h
  refine ⟨fun ch hm => by simpa using (List.all_eq_true.mp h1) ch hm, fun ch hc => ?_⟩
  rw [hc] at h2
  simpa using h2

theorem lineAction_export (K V : String)
    (hk1 : K.data ≠ [])
    (hk2 : ∀ ch ∈ K.data, pyIsSpace ch = false)
    (hk3 : ∀ ch ∈ K.data, ch ≠ '=')
    (hv : ∀ ch, V.data.getLast? = some ch → pyIsSpace ch = false) :
    lineAction ("export " ++ K ++ "=" ++ V) = some (.exportKV K V) := by
  have hdata : ("export " ++ K ++ "=" ++ V).data
      = ("export ".data ++ K.data) ++ '=' :: V.data := by
    rw [strData_append, strData_append, strData_append, List.append_assoc]
    rfl
  have hpre : ∀ ch ∈ "export ".data ++ K.data, ch ≠ '=' := by
    intro ch hm
    rcases List.mem_append.mp hm with h | h
    · have h' : ch ∈ ['e', 'x', 'p', 'o', 'r', 't', ' '] := h
      fin_cases h' <;> decide
    · exact hk3 ch h
  have hstrip : pyStrip ("export " ++ K ++ "=" ++ V) = "export " ++ K ++ "=" ++ V := by
    refine congrArg String.mk (pyStripChars_eq_self _ ?_ ?_)
    · intro ch hc
      rw [hdata] at hc
      have he : 'e' = ch := Option.some.inj hc
      rw [← he]
      decide
    · intro ch hc
      rw [hdata] at hc
      cases hV : V.data with
      | nil =>
        rw [hV, List.getLast?_concat] at hc
        have he : '=' = ch := Option.some.inj hc
        rw [← he]
        decide
      | cons c cs =>
        rw [hV, List.getLast?_append_of_ne_nil _ (by simp),
          List.getLast?_cons_cons] at hc
        apply hv
        rw [hV]
        exact hc
  have hsh : pyStartsWith (pyStrip ("export " ++ K ++ "=" ++ V)) "#" = false := by
    rw [hstrip]
    show chStarts "#".data (("export " ++ K ++ "=" ++ V).data) = false
    rw [hdata]
    rfl
  have hexp : pyStartsWith (pyStrip ("export " ++ K ++ "=" ++ V)) "export" = true := by
    rw [hstrip]
    show chStarts "export".data (("export " ++ K ++ "=" ++ V).data) = true
    rw [hdata]
    exact chStarts_self_append ['e', 'x', 'p', 'o', 'r', 't']
      (' ' :: (K.data ++ '=' :: V.data))
  have hsplit : pySplitChar '=' (pyStrip ("export " ++ K ++ "=" ++ V))
      = ("export " ++ K) :: (splitCharAux '=' V.data []).map (fun cs => (⟨cs⟩ : String)) := by
    rw [hstrip]
    unfold pySplitChar
    rw [hdata, splitCharAux_append '=' _ V.data hpre [], List.map_cons]
    simp only [List.reverse_nil, List.nil_append]
    rfl
  have hkey : pySplitWs ("export " ++ K) = ["export", K] :=
    pySplitWs_export_key K hk1 hk2
  have hval : joinWithEq ((splitCharAux '=' V.data []).map (fun cs => (⟨cs⟩ : String))) = V := by
    have h2 : (joinWithEq ((splitCharAux '=' V.data []).map
        (fun cs => (⟨cs⟩ : String)))).data = V.data := by
      simpa using joinEq_splitCharAux V.data []
    exact congrArg String.mk h2
  simp [lineAction, hsh, hexp, hsplit, hkey, hval, List.get?]

theorem lineAction_export_noEq (K : String)
    (hk1 : K.data ≠ [])
    (hk2 : ∀ ch ∈ K.data, pyIsSpace ch = false)
    (hk3 : ∀ ch ∈ K.data, ch ≠ '=') :
    lineAction ("export " ++ K) = some (.exportKV K "") := by
  have hnoeq : ∀ ch ∈ ("export " ++ K).data, ch ≠ '=' := by
    intro ch hm
    rcases List.mem_append.mp hm with h | h
    · have h' : ch ∈ ['e', 'x', 'p', 'o', 'r', 't', ' '] := h
      fin_cases h' <;> decide
    · exact hk3 ch h
  have hstrip : pyStrip ("export " ++ K) = "export " ++ K := by
    refine congrArg String.mk (pyStripChars_eq_self _ ?_ ?_)
    · intro ch hc
      have he : 'e' = ch := Option.some.inj hc
      rw [← he]
      decide
    · intro ch hc
      rw [show ("export " ++ K).data = "export ".data ++ K.data from rfl,
        List.getLast?_append_of_ne_nil _ hk1] at hc
      exact hk2 ch (List.mem_of_getLast?_eq_some hc)
  have hsh : pyStartsWith (pyStrip ("export " ++ K)) "#" = false := by
    rw [hstrip]
    rfl
  have hexp : pyStartsWith (pyStrip ("export " ++ K)) "export" = true := by
    rw [hstrip]
    exact chStarts_self_append ['e', 'x', 'p', 'o', 'r', 't'] (' ' :: K.data)
  have hsplit : pySplitChar '=' (pyStrip ("export " ++ K)) = ["export " ++ K] := by
    rw [hstrip]
    unfold pySplitChar
    rw [splitCharAux_noSep '=' _ hnoeq []]
    simp only [List.map_cons, List.map_nil, List.reverse_nil, List.nil_append]
  have hkey : pySplitWs ("export " ++ K) = ["export", K] :=
    pySplitWs_export_key K hk1 hk2
  simp [lineAction, hsh, hexp, hsplit, hkey, List.get?, joinWithEq]

theorem lineAction_exportUnset (V : String) :
    ∃ v, lineAction ("export unset=" ++ V) = some (.exportKV "unset" v) := by
  have hstrip : pyStrip ("export unset=" ++ V)
      = ⟨"export unset=".data ++ rtrimChars V.data⟩ := by
    refine congrArg String.mk (pyStripChars_append_nonWs _ _ ?_ ?_ ?_)
    · intro ch hc
      have he : 'e' = ch := Option.some.inj hc
      rw [← he]
      decide
    · intro ch hc
      have he : '=' = ch := Option.some.inj hc
      rw [← he]
      decide
    · simp
  have hsh : pyStartsWith (pyStrip ("export unset=" ++ V)) "#" = false := by
    rw [hstrip]
    rfl
  have hexp : pyStartsWith (pyStrip ("export unset=" ++ V)) "export" = true := by
    rw [hstrip]
    exact chStarts_self_append ['e', 'x', 'p', 'o', 'r', 't']
      (' ' :: 'u' :: 'n' :: 's' :: 'e' :: 't' :: '=' :: rtrimChars V.data)
  have hpre1 : ∀ ch ∈ "export unset".data, ch ≠ '=' := by decide
  have hsplit : pySplitChar '=' (pyStrip ("export unset=" ++ V))
      = "export unset" :: (splitCharAux '=' (rtrimChars V.data) []).map
          (fun cs => (⟨cs⟩ : String)) := by
    rw [hstrip]
    unfold pySplitChar
    show (splitCharAux '=' ("export unset".data ++ '=' :: rtrimChars V.data) []).map
        (fun cs => (⟨cs⟩ : String)) = _
    rw [splitCharAux_append '=' _ _ hpre1 [], List.map_cons]
    simp only [List.reverse_nil, List.nil_append]
  have hkey : pySplitWs "export unset" = ["export", "unset"] := rfl
  refine ⟨joinWithEq ((splitCharAux '=' (rtrimChars V.data) []).map
    (fun cs => (⟨cs⟩ : String))), ?_⟩
  simp [lineAction, hsh, hexp, hsplit, hkey, List.get?]

/-! ## Lemmas about the parser loop -/

theorem parseLinesCore_append (a b : List String)
    (st : List (String × String) × List String) :
    parseLinesCore (a ++ b) st =
      match parseLinesCore a st with
      | none => none
      | some st2 => parseLinesCore b st2 := by
  induction a generalizing st with
  | nil => rfl
  | cons l rest ih =>
    simp only [List.cons_append, parseLinesCore]
    cases h : lineAction l with
    | none => rfl
    | some act => exact ih _

theorem applyAct_rel (s1 s2 : List (String × String) × List String)
    (a : LineAct) (h : StRel s1 s2) : StRel (applyAct s1 a) (applyAct s2 a) := by
  cases a with
  | skip => exact h
  | exportKV k v =>
    refine ⟨h.1, fun q hq => ?_⟩
    show dlookup (dictInsert s1.1 k v) q = dlookup (dictInsert s2.1 k v) q
    rw [dlookup_dictInsert, dlookup_dictInsert]
    by_cases hqk : q = k
    · simp [hqk]
    · simp [hqk, h.2 q hq]
  | unsetK k => exact ⟨by simp [applyAct, h.1], h.2⟩

theorem parseLinesCore_rel (ls : List String)
    (s1 s2 : List (String × String) × List String) (h : StRel s1 s2) :
    (parseLinesCore ls s1 = none ∧ parseLinesCore ls s2 = none) ∨
    (∃ r1 r2, parseLinesCore ls s1 = some r1 ∧ parseLinesCore ls s2 = some r2 ∧
      StRel r1 r2) := by
  induction ls generalizing s1 s2 with
  | nil => exact Or.inr ⟨s1, s2, rfl, rfl, h⟩
  | cons l rest ih =>
    cases ha : lineAction l with
    | none => exact Or.inl ⟨by simp [parseLinesCore, ha], by simp [parseLinesCore, ha]⟩
    | some a =>
      rcases ih (applyAct s1 a) (applyAct s2 a) (applyAct_rel _ _ a h) with h1 | h1
      · exact Or.inl ⟨by simp [parseLinesCore, ha, h1.1], by simp [parseLinesCore, ha, h1.2]⟩
      · obtain ⟨r1, r2, e1, e2, hr⟩ := h1
        exact Or.inr ⟨r1, r2, by simp [parseLinesCore, ha, e1],
          by simp [parseLinesCore, ha, e2], hr⟩

theorem finalize_lookup_of_rel (r1 r2 : List (String × String) × List String)
    (h : StRel r1 r2) (k : String) :
    dlookup (finalize r1) k = dlookup (finalize r2) k := by
  unfold finalize
  rw [dlookup_dictInsert, dlookup_dictInsert]
  by_cases hk : k = "unset"
  · simp [hk, h.1]
  · rw [if_neg hk, if_neg hk, dlookup_mapVal, dlookup_mapVal, h.2 k hk]

theorem pySplitChar_joinWithNl (lines : List String) (hne : lines ≠ [])
    (h : ∀ s ∈ lines, ∀ ch ∈ s.data, ch ≠ '\n') :
    pySplitChar '\n' (joinWithNl lines) = lines := by
  induction lines with
  | nil => exact absurd rfl hne
  | cons s rest ih =>
    cases rest with
    | nil =>
      unfold pySplitChar
      rw [show joinWithNl [s] = s from rfl,
        splitCharAux_noSep '\n' s.data (h s (List.mem_cons_self _ _)) []]
      simp
    | cons t rest2 =>
      have hd : (s ++ "\n" ++ joinWithNl (t :: rest2)).data
          = s.data ++ '\n' :: (joinWithNl (t :: rest2)).data := by
        rw [strData_append, strData_append, List.append_assoc]
        rfl
      have ihh := ih (by simp) (fun q hq ch hch => h q (List.mem_cons_of_mem _ hq) ch hch)
      unfold pySplitChar at ihh
      unfold pySplitChar
      rw [show joinWithNl (s :: t :: rest2) = s ++ "\n" ++ joinWithNl (t :: rest2) from rfl,
        hd, splitCharAux_append '\n' s.data _ (h s (List.mem_cons_self _ _)) [],
        List.map_cons, ihh]
      simp only [List.reverse_nil, List.nil_append]

theorem parseLinesCore_renderExport (L : List (String × String))
    (hwf : ∀ p ∈ L, wfKeyB p.1 = true ∧ wfValB p.2 = true)
    (st : List (String × String) × List String) :
    parseLinesCore (L.map renderExport) st
      = some (L.foldl (fun c p => dictInsert c p.1 p.2) st.1, st.2) := by
  induction L generalizing st with
  | nil => rfl
  | cons p rest ih =>
    have hp := hwf p (List.mem_cons_self _ _)
    obtain ⟨h1, h2, h3⟩ := of_wfKeyB p.1 hp.1
    have h4 := of_wfValB p.2 hp.2
    have hact : lineAction (renderExport p) = some (.exportKV p.1 p.2) :=
      lineAction_export p.1 p.2 h1 h2 h3 h4.2
    simp only [List.map_cons, parseLinesCore, hact]
    exact ih (fun q hq => hwf q (List.mem_cons_of_mem _ hq)) _

theorem bash_to_dict_scriptOf (L : List (String × String))
    (hwf : ∀ p ∈ L, wfKeyB p.1 = true ∧ wfValB p.2 = true) :
    bash_to_dict (scriptOf L)
      = some (finalize (L.foldl (fun c p => dictInsert c p.1 p.2) [], [])) := by
  cases L with
  | nil => rfl
  | cons p rest =>
    unfold bash_to_dict scriptOf
    rw [pySplitChar_joinWithNl _ (by simp) ?hnl]
    case hnl =>
      intro s hs ch hch
      obtain ⟨q, hq, rfl⟩ := List.mem_map.mp hs
      obtain ⟨hq1, hq2, hq3⟩ := of_wfKeyB q.1 (hwf q hq).1
      have hq4 := of_wfValB q.2 (hwf q hq).2
      rw [show (renderExport q).data
          = (("export ".data ++ q.1.data) ++ ['=']) ++ q.2.data from by
        unfold renderExport
        rw [strData_append, strData_append, strData_append]] at hch
      rcases List.mem_append.mp hch with h' | h'
      · rcases List.mem_append.mp h' with h'' | h''
        · rcases List.mem_append.mp h'' with h3 | h3
          · have h3' : ch ∈ ['e', 'x', 'p', 'o', 'r', 't', ' '] := h3
            fin_cases h3' <;> decide
          · intro he
            have := hq2 ch h3
            rw [he] at this
            exact absurd this (by decide)
        · have : ch = '=' := by simpa using h''
          rw [this]
          decide
      · exact hq4.1 ch h'
    unfold bashToDictLines
    rw [parseLinesCore_renderExport _ hwf ([], [])]
    rfl

/-! ## Claim theorems -/

/-- C1: for every key recognized by the translation table, the resolved
parameter set binds the canonical name to the call-site override value when
an override is present, and to the (translated) script-config value
otherwise, for all combinations of presence and absence in either source. -/
theorem resolve_precedence (envs ov : List (String × EnvVal)) (ek pk : String)
    (hmem : (ek, pk) ∈ configMapping) (hov : (ov.map Prod.fst).Nodup) :
    dlookup (resolveParams (some (openai_config_from_envs envs)) ov) pk =
      match dlookup ov pk with
      | some v => some v
      | none => dlookup envs ek := by
  have hpkm : pk ∈ configMapping.map Prod.snd := List.mem_map.mpr ⟨(ek, pk), hmem, rfl⟩
  have hpks : pk ∈ ["api_key", "api_base", "api_type", "api_version", "organization"] := by
    simpa [configMapping] using hpkm
  have hdbg : pk ≠ "debug" := by
    fin_cases hpks <;> decide
  have hnd : (configMapping.map Prod.snd).Nodup := by decide
  have h1 := dlookup_tableFold_mem envs configMapping [] hnd ek pk hmem
  rw [dlookup_resolveParams _ _ _ hov, if_neg hdbg]
  rcases h2 : dlookup ov pk with _ | v
  · rw [show openai_config_from_envs envs = tableFold envs configMapping [] from rfl, h1]
    rcases dlookup envs ek with _ | w <;> simp [dlookup]
  · rfl

/-- Witness for C1 at a concrete script config and a concrete override. -/
theorem resolve_precedence_witness :
    ("OPENAI_API_KEY", "api_key") ∈ configMapping ∧
    (([("api_key", EnvVal.str "override")].map Prod.fst).Nodup) ∧
    dlookup
        (resolveParams
          (some (openai_config_from_envs [("OPENAI_API_KEY", EnvVal.str "from-script")]))
          [("api_key", EnvVal.str "override")]) "api_key" =
      match dlookup [("api_key", EnvVal.str "override")] "api_key" with
      | some v => some v
      | none => dlookup [("OPENAI_API_KEY", EnvVal.str "from-script")] "OPENAI_API_KEY" :=
  ⟨by decide, by decide,
    resolve_precedence [("OPENAI_API_KEY", EnvVal.str "from-script")]
      [("api_key", EnvVal.str "override")] "OPENAI_API_KEY" "api_key"
      (by decide) (by decide)⟩

/-- C5 (counterexample): the parsed config binds `REQUEST_TIMEOUT`, a key the
translation table does not recognize, yet the parameter set built by
`openai_config_from_bash` is empty — the key is dropped, not passed through. -/
theorem unrecognized_key_dropped_counterexample :
    bash_to_dict "export REQUEST_TIMEOUT=30" =
      some [("REQUEST_TIMEOUT", EnvVal.str "30"), ("unset", EnvVal.list [])] ∧
    openai_config_from_bash "export REQUEST_TIMEOUT=30" = some [] := by
  exact ⟨by decide, by decide⟩

/-- C5 (amended): every key other than the five canonical parameter names is
absent from the parameter set produced by the script-config-to-parameters
translation step; unrecognized script-config keys are dropped, not passed
through. -/
theorem unrecognized_keys_dropped (envs : List (String × EnvVal)) (k : String)
    (h : k ∉ ["api_key", "api_base", "api_type", "api_version", "organization"]) :
    dlookup (openai_config_from_envs envs) k = none := by
  have h2 : k ∉ configMapping.map Prod.snd := by simpa [configMapping] using h
  rw [show openai_config_from_envs envs = tableFold envs configMapping [] from rfl,
    dlookup_tableFold_notMem _ _ _ _ h2]
  rfl

/-- Witness for the amended C5 at a concrete config and key. -/
theorem unrecognized_keys_dropped_witness :
    ("REQUEST_TIMEOUT" ∉ ["api_key", "api_base", "api_type", "api_version", "organization"]) ∧
    dlookup (openai_config_from_envs
      [("REQUEST_TIMEOUT", EnvVal.str "30"), ("unset", EnvVal.list [])]) "REQUEST_TIMEOUT" = none :=
  ⟨by decide, unrecognized_keys_dropped _ _ (by decide)⟩

/-- C6 (counterexample): the resolution step mutates the caller's config
mapping — after `resolve({a: 1}, {b: 2})` the caller's dict has become
`{a: 1, b: 2}`, which differs from the value that was passed in. -/
theorem resolve_mutates_config_counterexample :
    (resolveParamsE (some [("a", "1")]) [("b", "2")]).2 = some [("a", "1"), ("b", "2")] ∧
    [("a", "1"), ("b", "2")] ≠ [("a", "1")] := by
  exact ⟨by decide, by decide⟩

/-- C6 (amended): resolution is deterministic and stable — re-resolving with
the (mutated) output of a first resolution and the same overrides yields an
extensionally identical parameter set — but it is not side-effect-free: a
non-empty caller config is updated in place to the resolved result. -/
theorem resolve_stable (c ov : List (String × String))
    (hov : (ov.map Prod.fst).Nodup) :
    (∀ k, dlookup (resolveParams (some (resolveParams (some c) ov)) ov) k =
        dlookup (resolveParams (some c) ov) k) ∧
    (c ≠ [] → (resolveParamsE (some c) ov).2 = some ((resolveParamsE (some c) ov).1)) := by
  constructor
  · intro k
    rw [dlookup_resolveParams _ _ _ hov, dlookup_resolveParams _ _ _ hov]
    by_cases hk : k = "debug"
    · simp [hk]
    · rw [if_neg hk, if_neg hk]
      rcases dlookup ov k with _ | v <;> simp
  · intro hc
    cases c with
    | nil => exact absurd rfl hc
    | cons p rest => rfl

/-- Witness for the amended C6 at a concrete config and override. -/
theorem resolve_stable_witness :
    (([("b", "2")].map Prod.fst).Nodup) ∧
    dlookup (resolveParams (some (resolveParams (some [("a", "1")]) [("b", "2")]))
        [("b", "2")]) "b" =
      dlookup (resolveParams (some [("a", "1")]) [("b", "2")]) "b" ∧
    (resolveParamsE (some [("a", "1")]) [("b", "2")]).2 =
      some ((resolveParamsE (some [("a", "1")]) [("b", "2")]).1) :=
  ⟨by decide, (resolve_stable [("a", "1")] [("b", "2")] (by decide)).1 "b",
    (resolve_stable [("a", "1")] [("b", "2")] (by decide)).2 (by decide)⟩

/-- Characterization of the validation written in the two constructor
bodies (the asserts of `OpenAIRESTEndpoint.__init__` lines 138-141 and
`AzureOpenAIEndpoint.__init__` lines 194-199): the body assert-fails exactly
when `api_key` or `api_type` is absent — plus, Gateway only, when
`api_version`, `api_base`, or the deployment identifier is absent.  Because
both classes leave `get_response` abstract, these bodies are unreachable in
the program (see the claim theorem below). -/
theorem endpoint_required_params (m dep : Option String) (c : OpenAIParams) :
    (isAssertErr (openAIRESTEndpoint_init m (some c)) = true ↔
      (c.api_key = none ∨ c.api_type = none ∨ m = none)) ∧
    (isAssertErr (azureOpenAIEndpoint_init dep (some c)) = true ↔
      (c.api_key = none ∨ c.api_type = none ∨ c.api_version = none ∨
        c.api_base = none ∨ dep = none)) := by
  obtain ⟨k, b, t, ver, org⟩ := c
  rcases k with _ | k <;> rcases t with _ | t <;> rcases ver with _ | ver <;>
    rcases b with _ | b <;> rcases m with _ | m <;> rcases dep with _ | dep <;>
      simp [openAIRESTEndpoint_init, azureOpenAIEndpoint_init, isAssertErr]

/-- C7 (code bug): endpoint construction never fails with
`MissingRequiredParameter`, not even when `api_key` is absent — both
`OpenAIRESTEndpoint` and `AzureOpenAIEndpoint` leave the base class's
abstract `get_response` unimplemented, so instantiating either class raises
`TypeError` before the parameter asserts at the cited lines can run, for
every model/deployment and every parameter set.  The validation the claim
describes is exactly what the unreachable constructor bodies would do
(`endpoint_required_params` above), but it is dead code. -/
theorem endpoint_construction_never_validates (m dep : Option String)
    (c : Option OpenAIParams) :
    openAIRESTEndpoint_new m c = Except.error (PyError.typeError "get_response") ∧
    azureOpenAIEndpoint_new dep c = Except.error (PyError.typeError "get_response") ∧
    isAssertErr (openAIRESTEndpoint_new m c) = false ∧
    isAssertErr (azureOpenAIEndpoint_new dep c) = false := by
  exact ⟨rfl, rfl, rfl, rfl⟩

/-- C8 (code bug): with every required parameter present — in particular
`api_base = "https://api.example.com"` and `api_version = "/v1"` — the
Direct-variant constructor does not succeed and build the completion URL;
it raises `NameError` on the undefined local `key` at the header-building
line, before any URL is constructed (and the URL lines that follow read the
client-library module globals rather than the endpoint's own parameters). -/
theorem direct_endpoint_construction_breaks :
    openAIRESTEndpoint_init (some "gpt-3")
      (some { api_key := some "sk-test", api_base := some "https://api.example.com",
              api_type := some "open_ai", api_version := some "/v1",
              organization := none }) =
      Except.error (PyError.nameError "key") := rfl

/-- C9 (code bug): on a well-shaped 2xx completion response the
client-library transport extracts `choices[0].text`, but the REST
transport's completion extractor reads `data[0]["completions"]` and fails
(`KeyError`, modelled as `none`) on that same response; the embedding
extractor does read `data[0].embedding`. -/
theorem rest_completion_extraction_mismatch :
    restCompletionsExtract
        (JValue.jobj [("choices", JValue.jarr [JValue.jobj [("text", JValue.jstr "hello")]])]) =
      none ∧
    cliCompletionExtract
        (JValue.jobj [("choices", JValue.jarr [JValue.jobj [("text", JValue.jstr "hello")]])]) =
      some (JValue.jstr "hello") ∧
    restEmbeddingExtract
        (JValue.jobj [("data", JValue.jarr
          [JValue.jobj [("embedding", JValue.jarr [JValue.jnum 1, JValue.jnum 2])]])]) =
      some (JValue.jarr [JValue.jnum 1, JValue.jnum 2]) ∧
    cliEmbeddingExtract
        (JValue.jobj [("data", JValue.jarr
          [JValue.jobj [("embedding", JValue.jarr [JValue.jnum 1, JValue.jnum 2])]])]) =
      some (JValue.jarr [JValue.jnum 1, JValue.jnum 2]) := by
  exact ⟨rfl, rfl, rfl, rfl⟩

/-- C2 (counterexample): the line `export A` begins with the token `export`
and contains no `=`, yet parse succeeds and binds `A` to the empty string —
there is no MalformedAssignment failure. -/
theorem export_no_eq_counterexample :
    bash_to_dict "export A\n"
      = some [("A", EnvVal.str ""), ("unset", EnvVal.list [])] := by
  decide

/-- C2 (amended): an `export` line carrying a key token but no `=` parses
successfully and binds the key to the empty string; parse fails only on an
`export` line with no second token at all (bare `export`), and then with an
index error rather than a MalformedAssignment. -/
theorem export_no_eq_amended (K : String) (h : wfKeyB K = true) (hK : K ≠ "unset") :
    bash_to_dict ("export " ++ K)
      = some [(K, EnvVal.str ""), ("unset", EnvVal.list [])] ∧
    bash_to_dict "export" = none := by
  constructor
  · obtain ⟨h1, h2, h3⟩ := of_wfKeyB K h
    have hact := lineAction_export_noEq K h1 h2 h3
    have hnl : ∀ ch ∈ ("export " ++ K).data, ch ≠ '\n' := by
      intro ch hm
      rcases List.mem_append.mp hm with h' | h'
      · have h'' : ch ∈ ['e', 'x', 'p', 'o', 'r', 't', ' '] := h'
        fin_cases h'' <;> decide
      · intro he
        have := h2 ch h'
        rw [he] at this
        exact absurd this (by decide)
    unfold bash_to_dict
    rw [show pySplitChar '\n' ("export " ++ K) = ["export " ++ K] from by
      unfold pySplitChar
      rw [splitCharAux_noSep '\n' _ hnl []]
      simp only [List.map_cons, List.map_nil, List.reverse_nil, List.nil_append]]
    unfold bashToDictLines
    simp only [parseLinesCore, hact]
    simp [finalize, dictInsert, applyAct, hK]
  · decide

/-- Witness for the amended C2 at the concrete key `A`. -/
theorem export_no_eq_amended_witness :
    wfKeyB "A" = true ∧ ("A" : String) ≠ "unset" ∧
    bash_to_dict ("export " ++ "A")
      = some [("A", EnvVal.str ""), ("unset", EnvVal.list [])] ∧
    bash_to_dict "export" = none :=
  ⟨by decide, by decide, (export_no_eq_amended "A" (by decide) (by decide)).1,
    (export_no_eq_amended "A" (by decide) (by decide)).2⟩

/-- C3: in the script `export A=1\nexport A=2\nunset A\n` the key `A` keeps
its last-exported value `2` in the mapping while also appearing in the unset
list — the two are tracked independently. -/
theorem last_export_wins_and_unset_tracked :
    bash_to_dict "export A=1\nexport A=2\nunset A\n"
      = some [("A", EnvVal.str "2"), ("unset", EnvVal.list ["A"])] := by
  decide

/-- C4 (counterexample): for the well-formed line `export unset=V`, parse
does not bind the key `unset` to `V` — the reserved unset-list entry
overwrites it with the (empty) unset list. -/
theorem export_key_named_unset_counterexample :
    bash_to_dict "export unset=V" = some [("unset", EnvVal.list [])] ∧
    EnvVal.list [] ≠ EnvVal.str "V" := by
  exact ⟨by decide, by decide⟩

/-- C4 (amended): for a script of well-formed `export K=V` lines with
distinct keys, parse binds every key other than the reserved name `unset`
to exactly the text after the first `=` of its line (embedded `=` kept
verbatim), and the result — as a lookup function — does not depend on the
order of the lines. -/
theorem export_script_reproduces (L : List (String × String))
    (hwf : ∀ p ∈ L, wfKeyB p.1 = true ∧ wfValB p.2 = true)
    (hnd : (L.map Prod.fst).Nodup) :
    (∀ K V, (K, V) ∈ L → K ≠ "unset" →
      (bash_to_dict (scriptOf L)).map (fun d => dlookup d K)
        = some (some (EnvVal.str V))) ∧
    (∀ L2, L.Perm L2 → ∀ k,
      (bash_to_dict (scriptOf L)).map (fun d => dlookup d k)
        = (bash_to_dict (scriptOf L2)).map (fun d => dlookup d k)) := by
  constructor
  · intro K V hm hKu
    rw [bash_to_dict_scriptOf L hwf]
    show some (dlookup (finalize
      (L.foldl (fun c p => dictInsert c p.1 p.2) [], [])) K) = some (some (EnvVal.str V))
    refine congrArg some ?_
    unfold finalize
    rw [dlookup_dictInsert, if_neg hKu, dlookup_mapVal,
      show L.foldl (fun c p => dictInsert c p.1 p.2) ([] : List (String × String))
        = dictUpdate [] L from rfl,
      dlookup_dictUpdate _ _ _ hnd, dlookup_of_mem_nodup L K V hnd hm]
    rfl
  · intro L2 hperm k
    have hwf2 : ∀ p ∈ L2, wfKeyB p.1 = true ∧ wfValB p.2 = true :=
      fun p hp => hwf p (hperm.symm.subset hp)
    have hnd2 : (L2.map Prod.fst).Nodup := (hperm.map Prod.fst).nodup_iff.mp hnd
    rw [bash_to_dict_scriptOf L hwf, bash_to_dict_scriptOf L2 hwf2]
    show some (dlookup (finalize
        (L.foldl (fun c p => dictInsert c p.1 p.2) [], [])) k)
      = some (dlookup (finalize
        (L2.foldl (fun c p => dictInsert c p.1 p.2) [], [])) k)
    refine congrArg some ?_
    unfold finalize
    rw [dlookup_dictInsert, dlookup_dictInsert]
    by_cases hk : k = "unset"
    · simp [hk]
    · rw [if_neg hk, if_neg hk, dlookup_mapVal, dlookup_mapVal,
        show L.foldl (fun c p => dictInsert c p.1 p.2) ([] : List (String × String))
          = dictUpdate [] L from rfl,
        show L2.foldl (fun c p => dictInsert c p.1 p.2) ([] : List (String × String))
          = dictUpdate [] L2 from rfl,
        dlookup_dictUpdate _ _ _ hnd, dlookup_dictUpdate _ _ _ hnd2,
        dlookup_perm L L2 hperm hnd k]

/-- Witness for the amended C4 on a two-line script with an embedded `=`. -/
theorem export_script_reproduces_witness :
    (∀ p ∈ [("A", "1"), ("B", "2=x")], wfKeyB p.1 = true ∧ wfValB p.2 = true) ∧
    (([("A", "1"), ("B", "2=x")].map Prod.fst).Nodup) ∧
    (bash_to_dict (scriptOf [("A", "1"), ("B", "2=x")])).map (fun d => dlookup d "B")
      = some (some (EnvVal.str "2=x")) ∧
    (bash_to_dict (scriptOf [("A", "1"), ("B", "2=x")])).map (fun d => dlookup d "A")
      = (bash_to_dict (scriptOf [("B", "2=x"), ("A", "1")])).map (fun d => dlookup d "A") :=
  ⟨by decide, by decide,
    (export_script_reproduces [("A", "1"), ("B", "2=x")] (by decide) (by decide)).1
      "B" "2=x" (by decide) (by decide),
    (export_script_reproduces [("A", "1"), ("B", "2=x")] (by decide) (by decide)).2
      [("B", "2=x"), ("A", "1")] (by decide) "A"⟩

/-- C10: the mapping returned by parse always carries the reserved key
`unset` bound to the unset list (the final overwrite), and inserting a
`export unset=V` line anywhere in a script has no observable effect on the
parse result: every lookup, and success versus failure, is unchanged. -/
theorem unset_reserved_key :
    (∀ c u, dlookup (finalize (c, u)) "unset" = some (EnvVal.list u)) ∧
    (∀ (V : String) (l1 l2 : List String),
      optEquiv (bashToDictLines (l1 ++ ("export unset=" ++ V) :: l2))
        (bashToDictLines (l1 ++ l2))) := by
  constructor
  · intro c u
    unfold finalize
    rw [dlookup_dictInsert]
    simp
  · intro V l1 l2
    obtain ⟨v, hact⟩ := lineAction_exportUnset V
    unfold bashToDictLines
    rw [parseLinesCore_append, parseLinesCore_append]
    cases h1 : parseLinesCore l1 ([], []) with
    | none => exact trivial
    | some st =>
      have hL : parseLinesCore (("export unset=" ++ V) :: l2) st
          = parseLinesCore l2 (dictInsert st.1 "unset" v, st.2) := by
        simp [parseLinesCore, hact, applyAct]
      show optEquiv ((parseLinesCore (("export unset=" ++ V) :: l2) st).map finalize)
        ((parseLinesCore l2 st).map finalize)
      rw [hL]
      have hrel : StRel (dictInsert st.1 "unset" v, st.2) st := by
        refine ⟨rfl, fun k hk => ?_⟩
        show dlookup (dictInsert st.1 "unset" v) k = dlookup st.1 k
        rw [dlookup_dictInsert, if_neg hk]
      rcases parseLinesCore_rel l2 _ _ hrel with ⟨hn1, hn2⟩ | ⟨r1, r2, he1, he2, hr⟩
      · rw [hn1, hn2]
        exact trivial
      · rw [he1, he2]
        show ∀ k, dlookup (finalize r1) k = dlookup (finalize r2) k
        exact fun k => finalize_lookup_of_rel r1 r2 hr k

end Dotfiles
